import Mathlib

/-!
Verification of the wreq-rb native extension core: the shallow embedding below
translates the Rust source of `src/ext/wreq_rb/src/{client.rs, response.rs}`
into Lean definitions, and the theorems settle the behavioural claims about
option marshalling, the GVL-release boundary, cancellation, the biased race,
JSON encoding and response materialization.
-/

namespace WreqRb

/-! ## Ruby dynamic values

Model of the Ruby `Value`s the extension manipulates through magnus.  A float
is either finite (carrying its rational value) or one of the non-finite IEEE
values; the `other` constructor stands for any Ruby object outside the scalar,
array and hash classes, carrying the string its `to_s` method would return. -/

inductive F64 where
  | finite (q : Rat)
  | nan
  | inf
  | negInf
deriving DecidableEq, Repr

inductive RubyValue where
  | nil
  | bool (b : Bool)
  | int (i : Int)
  | float (f : F64)
  | str (s : String)
  | sym (s : String)
  | array (xs : List RubyValue)
  | hash (entries : List (RubyValue × RubyValue))
  | other (toS : String)
deriving Repr

-- Structural equality on Ruby values (models Ruby `eql?` for hash keys).
mutual
def rvBeq : RubyValue → RubyValue → Bool
  | .nil, .nil => true
  | .bool a, .bool b => a == b
  | .int a, .int b => a == b
  | .float a, .float b => decide (a = b)
  | .str a, .str b => a == b
  | .sym a, .sym b => a == b
  | .array a, .array b => rvListBeq a b
  | .hash a, .hash b => rvPairsBeq a b
  | .other a, .other b => a == b
  | _, _ => false

def rvListBeq : List RubyValue → List RubyValue → Bool
  | [], [] => true
  | a :: as, b :: bs => rvBeq a b && rvListBeq as bs
  | _, _ => false

def rvPairsBeq : List (RubyValue × RubyValue) → List (RubyValue × RubyValue) → Bool
  | [], [] => true
  | (k1, v1) :: as, (k2, v2) :: bs => rvBeq k1 k2 && rvBeq v1 v2 && rvPairsBeq as bs
  | _, _ => false
end

/-- A Ruby hash, as the ordered list of its entries. -/
abbrev RHashM := List (RubyValue × RubyValue)

/-- Ruby `hash.aref(key)`: first entry whose key is `eql?` to `key`, else `nil`. -/
def aref (h : RHashM) (k : RubyValue) : RubyValue :=
  match h.find? (fun p => rvBeq p.1 k) with
  | some p => p.2
  | none => RubyValue.nil

/-- Errors surface to Ruby as a single exception class carrying a message. -/
abbrev Err := String

def genericError (msg : String) : Err := msg

/-- Ruby `val.is_nil()` on a Ruby value. -/
def RubyValue.isNil : RubyValue → Bool
  | .nil => true
  | _ => false

/-- Source `hash_get_value`: try the string key first; only when that yields
`nil` try the symbol key; `nil` under both means absent. -/
def hash_get_value (h : RHashM) (key : String) : Option RubyValue :=
  let v := aref h (RubyValue.str key)
  if ¬v.isNil then some v
  else
    let v := aref h (RubyValue.sym key)
    if ¬v.isNil then some v else none

/-- magnus `TryConvert` to Rust `String` (accepts Ruby strings). -/
def tryConvertString (v : RubyValue) : Except Err String :=
  match v with
  | .str s => .ok s
  | _ => .error (genericError "no implicit conversion into String")

/-- magnus `TryConvert` to `f64` (accepts Ruby floats and integers). -/
def tryConvertFloat (v : RubyValue) : Except Err Rat :=
  match v with
  | .float (.finite q) => .ok q
  | .int i => .ok (i : Rat)
  | _ => .error (genericError "no implicit conversion into Float")

/-- magnus `TryConvert` to `bool` uses Ruby truthiness and never fails. -/
def truthy (v : RubyValue) : Bool :=
  match v with
  | .nil => false
  | .bool false => false
  | _ => true

def hash_get_string (h : RHashM) (key : String) : Except Err (Option String) :=
  match hash_get_value h key with
  | some v => (tryConvertString v).map some
  | none => .ok none

def hash_get_float (h : RHashM) (key : String) : Except Err (Option Rat) :=
  match hash_get_value h key with
  | some v => (tryConvertFloat v).map some
  | none => .ok none

def hash_get_bool (h : RHashM) (key : String) : Except Err (Option Bool) :=
  match hash_get_value h key with
  | some v => .ok (some (truthy v))
  | none => .ok none

def hash_get_hash (h : RHashM) (key : String) : Except Err (Option RHashM) :=
  match hash_get_value h key with
  | some (.hash entries) => .ok (some entries)
  | some _ => .error (genericError "no implicit conversion into Hash")
  | none => .ok none

/-! ## Cancellation token (tokio_util CancellationToken, as the source uses it)

The token is a shared one-shot flag: `cancel` moves any state to `cancelled`
and `cancelled` never transitions back. -/

inductive TokenState where
  | active
  | cancelled
deriving DecidableEq, Repr

def TokenState.new : TokenState := .active

def TokenState.cancel : TokenState → TokenState := fun _ => .cancelled

def TokenState.isCancelled : TokenState → Bool
  | .active => false
  | .cancelled => true

/-! ## GVL-release boundary (`without_gvl` in client.rs)

The closure runs on the detached thread inside `panic::catch_unwind`; a panic
is modelled as the closure returning `.panicked payload`.  The call record
(`CallData`) carries the closure, the result slot, the token and the fault
slot, exactly as in the source. -/

/-- Result of running the detached closure under `catch_unwind`. -/
inductive RunResult (P R : Type) where
  | ok (r : R)
  | panicked (payload : P)

structure CallData (P R : Type) where
  func : Option (TokenState → RunResult P R)
  result : Option R
  token : TokenState
  panic_payload : Option P

/-- The trampoline `call`: take the closure, run it under `catch_unwind`,
store either the result or the panic payload in the call record. -/
def callTrampoline {P R : Type} (d : CallData P R) : CallData P R :=
  match d.func with
  | none => d
  | some f =>
    match f d.token with
    | .ok v => { d with func := none, result := some v }
    | .panicked payload => { d with func := none, panic_payload := some payload }

/-- The unblock function `ubf`: Ruby's interrupt hook; its only job is to
cancel the record's token. -/
def ubf {P R : Type} (d : CallData P R) : CallData P R :=
  { d with token := d.token.cancel }

/-- Source `without_gvl`: allocate the call record, run the trampoline through the
host primitive, then re-raise a captured fault (`.error payload`,
modelling `resume_unwind`) or return the stored result.  `none` is the
(unreachable) case of the source's `data.result.unwrap()` finding no value. -/
def without_gvl {P R : Type} (f : TokenState → RunResult P R) :
    Option (Except P R) :=
  let data : CallData P R :=
    { func := some f, result := none, token := TokenState.new, panic_payload := none }
  let data := callTrampoline data
  match data.panic_payload with
  | some payload => some (.error payload)
  | none => data.result.map .ok

/-! ## Response data and the biased race (`execute_method` in client.rs) -/

/-- Collected response data as pure Rust types (no Ruby objects). -/
structure ResponseData where
  status : Nat
  headers : List (String × String)
  body : List Nat
  url : String
  version : String
  content_length : Option Nat
deriving DecidableEq, Repr

/-- Engine-reported error (wreq::Error), by its message. -/
abbrev EngineErr := String

/-- Outcome of the network call performed outside the GVL. -/
inductive RequestOutcome where
  | ok (d : ResponseData)
  | err (e : EngineErr)
  | interrupted
deriving DecidableEq, Repr

/-- One poll of the `tokio::select!` with `biased`: the branches are polled
in source order, cancellation first, so a ready cancellation signal wins
even when the request future is ready in the same step. -/
def selectBiasedStep (cancelReady : Bool)
    (requestReady : Option (Except EngineErr ResponseData)) :
    Option RequestOutcome :=
  if cancelReady then some .interrupted
  else
    match requestReady with
    | some (.ok d) => some (.ok d)
    | some (.error e) => some (.err e)
    | none => none

/-- Run the race over a schedule of readiness observations: at each step the
biased select polls both branches; the first decisive step produces the
outcome. -/
def runRace : List (Bool × Option (Except EngineErr ResponseData)) →
    Option RequestOutcome
  | [] => none
  | (c, r) :: rest =>
    match selectBiasedStep c r with
    | some o => some o
    | none => runRace rest

/-! ## Ruby-to-JSON conversion (`ruby_to_json` in client.rs) -/

inductive JsonValue where
  | null
  | bool (b : Bool)
  | num (q : Rat)
  | str (s : String)
  | arr (xs : List JsonValue)
  | obj (fields : List (String × JsonValue))
deriving Repr

/-- Serde `Number::from_f64` succeeds exactly on finite floats. -/
def numberFromF64 : F64 → Option Rat
  | .finite q => some q
  | _ => none

/-- Serde `Map::insert`: replace the value of an existing key in place,
otherwise append the new entry. -/
def jmapInsert (m : List (String × JsonValue)) (k : String) (v : JsonValue) :
    List (String × JsonValue) :=
  if m.any (fun p => p.1 == k) then m.map (fun p => if p.1 == k then (k, v) else p)
  else m ++ [(k, v)]

/-- Hash-key conversion inside `ruby_to_json` and `hash_to_pairs`: a symbol is
rendered with `to_s`, anything else must `TryConvert` to a string. -/
def hashKeyToString (k : RubyValue) : Except Err String :=
  match k with
  | .sym s => .ok s
  | _ => tryConvertString k

-- Ruby `to_s` on a value (the source's fallback and pair-value rendering).
-- The textual form of composite/float values abstracts Ruby's formatting.
mutual
def rvToS : RubyValue → String
  | .nil => ""
  | .bool true => "true"
  | .bool false => "false"
  | .int i => toString i
  | .float (.finite q) => toString q
  | .float .nan => "NaN"
  | .float .inf => "Infinity"
  | .float .negInf => "-Infinity"
  | .str s => s
  | .sym s => s
  | .array xs => "[" ++ rvListToS xs ++ "]"
  | .hash es => "\x7b" ++ rvPairsToS es ++ "\x7d"
  | .other s => s

def rvListToS : List RubyValue → String
  | [] => ""
  | [x] => rvToS x
  | x :: xs => rvToS x ++ ", " ++ rvListToS xs

def rvPairsToS : List (RubyValue × RubyValue) → String
  | [] => ""
  | [(k, v)] => rvToS k ++ " => " ++ rvToS v
  | (k, v) :: es => rvToS k ++ " => " ++ rvToS v ++ ", " ++ rvPairsToS es
end

-- `ruby_to_json`: dynamic Ruby value to a JSON tree.  Branch order follows
-- the source's `is_kind_of` chain; symbols and other objects hit the
-- trailing `to_s` fallback.  Non-finite floats coerce to the number zero.
mutual
def ruby_to_json : RubyValue → Except Err JsonValue
  | .nil => .ok .null
  | .bool b => .ok (.bool b)
  | .int i => .ok (.num (i : Rat))
  | .float f => .ok (.num ((numberFromF64 f).getD 0))
  | .str s => .ok (.str s)
  | .array xs => (rubyListToJson xs).map .arr
  | .hash entries => (rubyHashToJson entries []).map .obj
  | .sym s => .ok (.str (rvToS (.sym s)))
  | .other s => .ok (.str (rvToS (.other s)))

def rubyListToJson : List RubyValue → Except Err (List JsonValue)
  | [] => .ok []
  | x :: xs =>
    match ruby_to_json x with
    | .error e => .error e
    | .ok j => (rubyListToJson xs).map (fun js => j :: js)

def rubyHashToJson : List (RubyValue × RubyValue) → List (String × JsonValue) →
    Except Err (List (String × JsonValue))
  | [], acc => .ok acc
  | (k, v) :: rest, acc =>
    match hashKeyToString k with
    | .error e => .error e
    | .ok ks =>
      match ruby_to_json v with
      | .error e => .error e
      | .ok jv => rubyHashToJson rest (jmapInsert acc ks jv)
end

/-- Escape one character for a JSON string literal. -/
def jsonEscapeChar (c : Char) : String :=
  if c = Char.ofNat 34 then "\\\""
  else if c = Char.ofNat 92 then "\\\\"
  else if c = Char.ofNat 10 then "\\n"
  else if c = Char.ofNat 13 then "\\r"
  else if c = Char.ofNat 9 then "\\t"
  else String.singleton c

def jsonEscape (s : String) : String :=
  String.join (s.toList.map jsonEscapeChar)

/-- Textual form of a JSON number (abstracts serde_json number formatting). -/
def ratToJsonString (q : Rat) : String :=
  if q.den = 1 then toString q.num else toString q

-- `serde_json::to_string` on the JSON tree.
mutual
def jsonSerialize : JsonValue → String
  | .null => "null"
  | .bool true => "true"
  | .bool false => "false"
  | .num q => ratToJsonString q
  | .str s => "\"" ++ jsonEscape s ++ "\""
  | .arr xs => "[" ++ jsonSerializeList xs ++ "]"
  | .obj fs => "\x7b" ++ jsonSerializeObj fs ++ "\x7d"

def jsonSerializeList : List JsonValue → String
  | [] => ""
  | [x] => jsonSerialize x
  | x :: xs => jsonSerialize x ++ "," ++ jsonSerializeList xs

def jsonSerializeObj : List (String × JsonValue) → String
  | [] => ""
  | [(k, v)] => "\"" ++ jsonEscape k ++ "\":" ++ jsonSerialize v
  | (k, v) :: fs =>
    "\"" ++ jsonEscape k ++ "\":" ++ jsonSerialize v ++ "," ++ jsonSerializeObj fs
end

/-- Source `ruby_to_json_string`: convert then serialize. -/
def ruby_to_json_string (v : RubyValue) : Except Err String :=
  (ruby_to_json v).map jsonSerialize

/-! ## Header and pair marshalling -/

/-- RFC 7230 token characters, as accepted by the engine's header-name and
method parsers (codes 39 and 96 are the apostrophe and the backtick). -/
def isTokenChar (c : Char) : Bool :=
  c.isAlphanum ||
    c ∈ ['!', '#', '$', '%', '&', '*', '+', '-', '.', '^', '_', '|', '~'] ||
    c.toNat = 39 || c.toNat = 96

def isValidHeaderName (s : String) : Bool :=
  s.length > 0 && s.toList.all isTokenChar

/-- Engine `HeaderName::from_bytes`: validate and normalize to lowercase. -/
def headerNameFromString (s : String) : Except Err String :=
  if isValidHeaderName s then .ok s.toLower
  else .error (genericError ("invalid HTTP header name: " ++ s))

def isValidHeaderValueChar (c : Char) : Bool :=
  c.toNat = 9 || (32 ≤ c.toNat && c.toNat ≠ 127)

/-- Engine `HeaderValue::from_str`: reject control characters. -/
def headerValueFromString (s : String) : Except Err String :=
  if s.toList.all isValidHeaderValueChar then .ok s
  else .error (genericError "failed to parse header value")

/-- Engine `HeaderMap::insert`: replace the value of an existing name, else append. -/
def hmapInsert (m : List (String × String)) (k v : String) :
    List (String × String) :=
  if m.any (fun p => p.1 == k) then m.map (fun p => if p.1 == k then (k, v) else p)
  else m ++ [(k, v)]

def hashToHeaderMapGo : RHashM → List (String × String) →
    Except Err (List (String × String))
  | [], acc => .ok acc
  | (k, v) :: rest, acc =>
    match tryConvertString k with
    | .error e => .error e
    | .ok ks =>
      match tryConvertString v with
      | .error e => .error e
      | .ok vs =>
        match headerNameFromString ks with
        | .error e => .error e
        | .ok name =>
          match headerValueFromString vs with
          | .error e => .error e
          | .ok value => hashToHeaderMapGo rest (hmapInsert acc name value)

/-- Source `hash_to_header_map`: each key/value converts to a string, is validated
as a header name/value and inserted into the header map. -/
def hash_to_header_map (h : RHashM) : Except Err (List (String × String)) :=
  hashToHeaderMapGo h []

/-- Source `hash_to_pairs`: symbol keys via `to_s`, other keys must be strings;
values are rendered with `to_s`; pairs keep hash iteration order. -/
def hash_to_pairs : RHashM → Except Err (List (String × String))
  | [] => .ok []
  | (k, v) :: rest =>
    match hashKeyToString k with
    | .error e => .error e
    | .ok ks => (hash_to_pairs rest).map (fun ps => (ks, rvToS v) :: ps)

/-! ## Client construction (`rb_new` in client.rs)

The engine's `ClientBuilder` is modelled as a record of the options the
source can apply; a `none` / `false` field means the corresponding engine
default was left untouched (no builder method was called for it). -/

inductive RedirectPolicyM where
  | noFollow
  | limited (n : Nat)
deriving DecidableEq, Repr

structure ProxyM where
  url : String
  basicAuth : Option (String × String)
deriving DecidableEq, Repr

structure ClientBuilder where
  emulation : Option String := none
  user_agent : Option String := none
  default_headers : Option (List (String × String)) := none
  timeout : Option Rat := none
  connect_timeout : Option Rat := none
  read_timeout : Option Rat := none
  redirect : Option RedirectPolicyM := none
  cookie_store : Option Bool := none
  proxy : Option ProxyM := none
  no_proxy : Bool := false
  https_only : Option Bool := none
  http1_only : Bool := false
  http2_only : Bool := false
  gzip : Option Bool := none
  brotli : Option Bool := none
  deflate : Option Bool := none
  zstd : Option Bool := none
deriving DecidableEq, Repr

/-- The default emulation applied when none is specified (`Chrome143`). -/
def DEFAULT_EMULATION : String := "chrome_143"

/-- Serde names of the external `wreq_util::Emulation` variants
(representative subset of the browser-profile enum). -/
def knownEmulations : List String :=
  ["chrome_142", "chrome_143", "firefox_146", "safari_18_5", "edge_127",
   "opera_119"]

/-- Source `parse_emulation`: serde string deserialization of the profile name. -/
def parse_emulation (name : String) : Except Err String :=
  if knownEmulations.contains name then .ok name
  else .error (genericError ("unknown emulation: " ++ name))

/-- magnus `TryConvert` to `usize`: non-negative integers only. -/
def tryConvertUsize (v : RubyValue) : Except Err Nat :=
  match v with
  | .int i => if 0 ≤ i then .ok i.toNat else .error (genericError "negative value for usize")
  | _ => .error (genericError "no implicit conversion into Integer")

/-- Engine `wreq::Proxy::all`: parse the proxy URL (scheme-and-host shape). -/
def proxyAll (url : String) : Except Err ProxyM :=
  match url.splitOn "://" with
  | scheme :: tail :: _ =>
    if scheme.length > 0 && tail.length > 0 then .ok { url := url, basicAuth := none }
    else .error (genericError ("invalid proxy url: " ++ url))
  | _ => .error (genericError ("invalid proxy url: " ++ url))

def emuStep (h : RHashM) (b : ClientBuilder) : Except Err ClientBuilder :=
  match hash_get_value h "emulation" with
  | none => .ok { b with emulation := some DEFAULT_EMULATION }
  | some (.bool false) => .ok b
  | some (.bool true) => .ok { b with emulation := some DEFAULT_EMULATION }
  | some v =>
    (tryConvertString v).bind fun name =>
      (parse_emulation name).map fun e => { b with emulation := some e }

def uaStep (h : RHashM) (b : ClientBuilder) : Except Err ClientBuilder :=
  match hash_get_string h "user_agent" with
  | .error e => .error e
  | .ok none => .ok b
  | .ok (some ua) => .ok { b with user_agent := some ua }

def hdrStep (h : RHashM) (b : ClientBuilder) : Except Err ClientBuilder :=
  match hash_get_hash h "headers" with
  | .error e => .error e
  | .ok none => .ok b
  | .ok (some hh) =>
    (hash_to_header_map hh).map fun hm => { b with default_headers := some hm }

def timeoutStep (h : RHashM) (b : ClientBuilder) : Except Err ClientBuilder :=
  match hash_get_float h "timeout" with
  | .error e => .error e
  | .ok none => .ok b
  | .ok (some t) => .ok { b with timeout := some t }

def connectTimeoutStep (h : RHashM) (b : ClientBuilder) : Except Err ClientBuilder :=
  match hash_get_float h "connect_timeout" with
  | .error e => .error e
  | .ok none => .ok b
  | .ok (some t) => .ok { b with connect_timeout := some t }

def readTimeoutStep (h : RHashM) (b : ClientBuilder) : Except Err ClientBuilder :=
  match hash_get_float h "read_timeout" with
  | .error e => .error e
  | .ok none => .ok b
  | .ok (some t) => .ok { b with read_timeout := some t }

def redirectStep (h : RHashM) (b : ClientBuilder) : Except Err ClientBuilder :=
  match hash_get_value h "redirect" with
  | none => .ok b
  | some (.bool false) => .ok { b with redirect := some .noFollow }
  | some (.bool true) => .ok { b with redirect := some (.limited 10) }
  | some v =>
    (tryConvertUsize v).map fun n => { b with redirect := some (.limited n) }

def cookiesStep (h : RHashM) (b : ClientBuilder) : Except Err ClientBuilder :=
  match hash_get_bool h "cookies" with
  | .error e => .error e
  | .ok none => .ok b
  | .ok (some enabled) => .ok { b with cookie_store := some enabled }

def proxyStep (h : RHashM) (b : ClientBuilder) : Except Err ClientBuilder :=
  match hash_get_string h "proxy" with
  | .error e => .error e
  | .ok none => .ok b
  | .ok (some proxy_url) =>
    match proxyAll proxy_url with
    | .error e => .error e
    | .ok p =>
      match hash_get_string h "proxy_user" with
      | .error e => .error e
      | .ok user =>
        match hash_get_string h "proxy_pass" with
        | .error e => .error e
        | .ok pass =>
          let p := match user, pass with
            | some u, some pw => { p with basicAuth := some (u, pw) }
            | _, _ => p
          .ok { b with proxy := some p }

def noProxyStep (h : RHashM) (b : ClientBuilder) : Except Err ClientBuilder :=
  match hash_get_bool h "no_proxy" with
  | .error e => .error e
  | .ok (some true) => .ok { b with no_proxy := true }
  | .ok _ => .ok b

def httpsOnlyStep (h : RHashM) (b : ClientBuilder) : Except Err ClientBuilder :=
  match hash_get_bool h "https_only" with
  | .error e => .error e
  | .ok none => .ok b
  | .ok (some enabled) => .ok { b with https_only := some enabled }

def http1Step (h : RHashM) (b : ClientBuilder) : Except Err ClientBuilder :=
  match hash_get_bool h "http1_only" with
  | .error e => .error e
  | .ok (some true) => .ok { b with http1_only := true }
  | .ok _ => .ok b

def http2Step (h : RHashM) (b : ClientBuilder) : Except Err ClientBuilder :=
  match hash_get_bool h "http2_only" with
  | .error e => .error e
  | .ok (some true) => .ok { b with http2_only := true }
  | .ok _ => .ok b

def gzipStep (h : RHashM) (b : ClientBuilder) : Except Err ClientBuilder :=
  match hash_get_bool h "gzip" with
  | .error e => .error e
  | .ok none => .ok b
  | .ok (some v) => .ok { b with gzip := some v }

def brotliStep (h : RHashM) (b : ClientBuilder) : Except Err ClientBuilder :=
  match hash_get_bool h "brotli" with
  | .error e => .error e
  | .ok none => .ok b
  | .ok (some v) => .ok { b with brotli := some v }

def deflateStep (h : RHashM) (b : ClientBuilder) : Except Err ClientBuilder :=
  match hash_get_bool h "deflate" with
  | .error e => .error e
  | .ok none => .ok b
  | .ok (some v) => .ok { b with deflate := some v }

def zstdStep (h : RHashM) (b : ClientBuilder) : Except Err ClientBuilder :=
  match hash_get_bool h "zstd" with
  | .error e => .error e
  | .ok none => .ok b
  | .ok (some v) => .ok { b with zstd := some v }

/-- The option-processing body of `rb_new`, applied in source order. -/
def rbNewWithOpts (h : RHashM) : Except Err ClientBuilder :=
  emuStep h {} >>= uaStep h >>= hdrStep h >>= timeoutStep h >>=
    connectTimeoutStep h >>= readTimeoutStep h >>= redirectStep h >>=
    cookiesStep h >>= proxyStep h >>= noProxyStep h >>= httpsOnlyStep h >>=
    http1Step h >>= http2Step h >>= gzipStep h >>= brotliStep h >>=
    deflateStep h >>= zstdStep h

/-- Source `Client.rb_new`: with no arguments the builder only gets the default
emulation; with an options hash each present key is applied in order
(`builder.build()` is the identity on this configuration model). -/
def rb_new (args : List RubyValue) : Except Err ClientBuilder :=
  match args with
  | [] => .ok { emulation := some DEFAULT_EMULATION }
  | a :: _ =>
    match a with
    | .hash hh => rbNewWithOpts hh
    | _ => .error (genericError "no implicit conversion into Hash")

/-! ## Per-request options (`apply_request_options` in client.rs) -/

inductive BodySource where
  | raw (s : String)
  | form (pairs : List (String × String))
deriving DecidableEq, Repr

inductive AuthSetting where
  | token (t : String)
  | bearer (t : String)
  | basic (user : String) (pass : String)
deriving DecidableEq, Repr

structure RequestBuilder where
  method : String
  url : String
  headers : List (String × String) := []
  bodySlot : Option BodySource := none
  query : List (String × String) := []
  timeout : Option Rat := none
  auth : Option AuthSetting := none
  proxy : Option ProxyM := none
  emulation : Option String := none
deriving DecidableEq, Repr

/-- Source `self.inner.request(method, url)`: a fresh request builder (the client's
own defaults are merged by the engine at send time). -/
def clientRequest (_c : ClientBuilder) (m : String) (url : String) :
    RequestBuilder :=
  { method := m, url := url }

def reqHeadersStep (h : RHashM) (req : RequestBuilder) :
    Except Err RequestBuilder :=
  match hash_get_hash h "headers" with
  | .error e => .error e
  | .ok none => .ok req
  | .ok (some hh) =>
    (hash_to_header_map hh).map fun hm =>
      { req with headers := hm.foldl (fun acc p => hmapInsert acc p.1 p.2) req.headers }

def reqBodyStep (h : RHashM) (req : RequestBuilder) :
    Except Err RequestBuilder :=
  match hash_get_string h "body" with
  | .error e => .error e
  | .ok none => .ok req
  | .ok (some body_str) => .ok { req with bodySlot := some (.raw body_str) }

def reqJsonStep (h : RHashM) (req : RequestBuilder) :
    Except Err RequestBuilder :=
  match hash_get_value h "json" with
  | none => .ok req
  | some json_val =>
    (ruby_to_json_string json_val).map fun json_str =>
      { req with
        headers := hmapInsert req.headers "content-type" "application/json",
        bodySlot := some (.raw json_str) }

def reqFormStep (h : RHashM) (req : RequestBuilder) :
    Except Err RequestBuilder :=
  match hash_get_hash h "form" with
  | .error e => .error e
  | .ok none => .ok req
  | .ok (some fh) =>
    (hash_to_pairs fh).map fun pairs =>
      { req with
        headers := hmapInsert req.headers "content-type"
          "application/x-www-form-urlencoded",
        bodySlot := some (.form pairs) }

def reqQueryStep (h : RHashM) (req : RequestBuilder) :
    Except Err RequestBuilder :=
  match hash_get_hash h "query" with
  | .error e => .error e
  | .ok none => .ok req
  | .ok (some qh) =>
    (hash_to_pairs qh).map fun pairs => { req with query := req.query ++ pairs }

def reqTimeoutStep (h : RHashM) (req : RequestBuilder) :
    Except Err RequestBuilder :=
  match hash_get_float h "timeout" with
  | .error e => .error e
  | .ok none => .ok req
  | .ok (some t) => .ok { req with timeout := some t }

def reqAuthStep (h : RHashM) (req : RequestBuilder) :
    Except Err RequestBuilder :=
  match hash_get_string h "auth" with
  | .error e => .error e
  | .ok none => .ok req
  | .ok (some t) => .ok { req with auth := some (.token t) }

def reqBearerStep (h : RHashM) (req : RequestBuilder) :
    Except Err RequestBuilder :=
  match hash_get_string h "bearer" with
  | .error e => .error e
  | .ok none => .ok req
  | .ok (some t) => .ok { req with auth := some (.bearer t) }

def reqBasicStep (h : RHashM) (req : RequestBuilder) :
    Except Err RequestBuilder :=
  match hash_get_value h "basic" with
  | none => .ok req
  | some (.array l) =>
    match l with
    | u :: p :: _ =>
      (tryConvertString u).bind fun user =>
        (tryConvertString p).map fun pass =>
          { req with auth := some (.basic user pass) }
    | _ => .ok req
  | some _ => .error (genericError "no implicit conversion into Array")

def reqProxyStep (h : RHashM) (req : RequestBuilder) :
    Except Err RequestBuilder :=
  match hash_get_string h "proxy" with
  | .error e => .error e
  | .ok none => .ok req
  | .ok (some proxy_url) =>
    (proxyAll proxy_url).map fun p => { req with proxy := some p }

def reqEmuStep (h : RHashM) (req : RequestBuilder) :
    Except Err RequestBuilder :=
  match hash_get_value h "emulation" with
  | none => .ok req
  | some (.bool false) => .ok req
  | some (.bool true) => .ok { req with emulation := some DEFAULT_EMULATION }
  | some v =>
    (tryConvertString v).bind fun name =>
      (parse_emulation name).map fun e => { req with emulation := some e }

/-- Source `apply_request_options`: per-call options applied in source order.  No
branch checks for conflicting body sources; each later body-setting key
simply overwrites the body slot. -/
def apply_request_options (req : RequestBuilder) (h : RHashM) :
    Except Err RequestBuilder :=
  reqHeadersStep h req >>= reqBodyStep h >>= reqJsonStep h >>= reqFormStep h >>=
    reqQueryStep h >>= reqTimeoutStep h >>= reqAuthStep h >>= reqBearerStep h >>=
    reqBasicStep h >>= reqProxyStep h >>= reqEmuStep h

/-- Engine `Method::from_str`: any non-empty token is a method. -/
def parseMethod (s : String) : Except Err String :=
  if s.length > 0 && s.toList.all isTokenChar then .ok s
  else .error (genericError ("invalid HTTP method: " ++ s))

/-! ## Response object (response.rs) -/

structure ResponseM where
  status : Nat
  headers : List (String × String)
  body : List Nat
  url : String
  version : String
  content_length : Option Nat
deriving DecidableEq, Repr

def ResponseM.make (status : Nat) (headers : List (String × String))
    (body : List Nat) (url : String) (version : String)
    (content_length : Option Nat) : ResponseM :=
  ⟨status, headers, body, url, version, content_length⟩

/-- Ruby `hash[k] = v`: replace the value of an existing key in place,
otherwise append the new entry at the end. -/
def rhashAset : List (String × String) → String → String →
    List (String × String)
  | [], k, v => [(k, v)]
  | (k0, v0) :: rest, k, v =>
    if k0 == k then (k0, v) :: rest else (k0, v0) :: rhashAset rest k v

/-- Source `Response#headers`: build a fresh Ruby hash by `aset`-ing the collected
pairs in list order. -/
def ResponseM.headersMethod (r : ResponseM) : List (String × String) :=
  r.headers.foldl (fun h p => rhashAset h p.1 p.2) []

/-- Value lookup in the built Ruby hash. -/
def assocLookup (h : List (String × String)) (k : String) : Option String :=
  (h.find? (fun p => p.1 == k)).map (fun p => p.2)

/-! ## The full call (`execute_method` in client.rs)

The network race inside the GVL-release boundary is abstracted by a `race`
function from the built request to its `RequestOutcome` (in the source this
is the `tokio::select!` over `runRace`-style readiness).  The second
component of the result records whether the detached closure was entered. -/

def interruptedMessage : Err := genericError "request interrupted"

def execute_method (client : ClientBuilder) (method_str : String)
    (args : List RubyValue) (race : RequestBuilder → RequestOutcome) :
    Except Err ResponseM × Bool :=
  match args with
  | [] => (.error (genericError "url is required"), false)
  | a :: rest =>
    match tryConvertString a with
    | .error e => (.error e, false)
    | .ok url =>
      let optsRes : Except Err (Option RHashM) :=
        match rest with
        | [] => .ok none
        | o :: _ =>
          match o with
          | .hash hh => .ok (some hh)
          | _ => .error (genericError "no implicit conversion into Hash")
      match optsRes with
      | .error e => (.error e, false)
      | .ok opts =>
        match parseMethod method_str with
        | .error e => (.error e, false)
        | .ok m =>
          let req := clientRequest client m url
          let reqRes : Except Err RequestBuilder :=
            match opts with
            | none => .ok req
            | some hh => apply_request_options req hh
          match reqRes with
          | .error e => (.error e, false)
          | .ok req =>
            match race req with
            | .ok d =>
              (.ok (ResponseM.make d.status d.headers d.body d.url d.version
                d.content_length), true)
            | .err e => (.error e, true)
            | .interrupted => (.error interruptedMessage, true)

/-! ## Spec-side definitions (used only to state refinement claims) -/

/-- The last value associated to `key` in a pair list (spec: duplicate header
names resolve to the last value). -/
def lastAssoc : List (String × String) → String → Option String
  | [], _ => none
  | (k, v) :: rest, key =>
    match lastAssoc rest key with
    | some v2 => some v2
    | none => if k == key then some v else none

/-- First-occurrence order of keys not yet seen (spec: the map's key order is
the insertion order of each name's first occurrence). -/
def firstKeyOccurrences : List String → List String → List String
  | _, [] => []
  | seen, k :: ks =>
    if k ∈ seen then firstKeyOccurrences seen ks
    else k :: firstKeyOccurrences (k :: seen) ks

/-! # Theorems -/

/-! ## Generic helpers -/

theorem except_bind_ok {ε α β : Type} {x : Except ε α} {f : α → Except ε β}
    {b : β} : (x >>= f) = .ok b ↔ ∃ a, x = .ok a ∧ f a = .ok b := by
  cases x <;> simp [Bind.bind, Except.bind]

/-! ## Cancellation token and interrupt hook -/

theorem cancel_iterate (n : Nat) (s : TokenState) :
    TokenState.cancel^[n + 1] s = TokenState.cancelled := by
  induction n generalizing s with
  | zero => rfl
  | succ m ih => rw [Function.iterate_succ_apply]; exact ih _

theorem ubf_token {P R : Type} (d : CallData P R) :
    (ubf d).token = TokenState.cancelled := rfl

theorem ubf_fixed {P R : Type} (d : CallData P R)
    (hd : d.token = TokenState.cancelled) : ubf d = d := by
  cases d
  simp_all [ubf, TokenState.cancel]

theorem ubf_iterate {P R : Type} (n : Nat) (d : CallData P R) :
    ubf^[n + 1] d = ubf d := by
  induction n with
  | zero => rfl
  | succ m ih =>
    rw [Function.iterate_succ_apply', ih, ubf_fixed (ubf d) (ubf_token d)]

/-- C3: `cancel()` on a CancellationToken, as the interrupt hook `ubf` invokes
it, is idempotent and monotonic: N ≥ 1 invocations leave the token in the
same `cancelled` state as one invocation, there is no transition back from
`cancelled`, and iterating the interrupt hook N times equals running it
once. -/
theorem cancel_idempotent {P R : Type} (d : CallData P R) (s : TokenState)
    (n : Nat) (hn : 1 ≤ n) :
    TokenState.cancel^[n] s = TokenState.cancel s ∧
    (TokenState.cancel^[n] s).isCancelled = true ∧
    TokenState.cancel TokenState.cancelled = TokenState.cancelled ∧
    ubf^[n] d = ubf d := by
  obtain ⟨m, rfl⟩ : ∃ m, n = m + 1 := ⟨n - 1, (Nat.succ_pred_eq_of_pos hn).symm⟩
  refine ⟨?_, ?_, rfl, ubf_iterate m d⟩
  · rw [cancel_iterate]; rfl
  · rw [cancel_iterate]; rfl

theorem cancel_idempotent_witness :
    1 ≤ 3 ∧
      TokenState.cancel^[3] TokenState.active =
        TokenState.cancel TokenState.active := by
  have h := cancel_idempotent (P := String) (R := Nat)
    { func := none, result := none, token := TokenState.active,
      panic_payload := none }
    TokenState.active 3 (by decide)
  exact ⟨by decide, h.1⟩

/-! ## Fault containment across the GVL boundary -/

/-- C2: any panic raised inside the closure run through `without_gvl` is
captured into the call record's fault slot (never unwinding through the C
frame) and re-raised after the host primitive returns with the original
payload unmodified; when no fault occurred the stored result is returned. -/
theorem without_gvl_fault_containment {P R : Type}
    (f : TokenState → RunResult P R) (p : P) (r : R) :
    (f TokenState.new = .panicked p → without_gvl f = some (.error p)) ∧
    (f TokenState.new = .ok r → without_gvl f = some (.ok r)) := by
  constructor <;> intro hf <;> simp [without_gvl, callTrampoline, hf]

theorem without_gvl_fault_containment_witness :
    without_gvl (fun _ => RunResult.panicked (R := Nat) "boom") =
        some (.error "boom") ∧
      without_gvl (fun _ => RunResult.ok (P := String) (37 : Nat)) =
        some (.ok 37) :=
  ⟨(without_gvl_fault_containment _ "boom" 37).1 rfl,
   (without_gvl_fault_containment _ "boom" 37).2 rfl⟩

/-! ## JSON encoding of floats -/

/-- C8: during JSON encoding, every non-finite float (NaN, +∞, -∞) is coerced
to the numeric literal zero instead of failing, while every finite float is
encoded as itself. -/
theorem nonfinite_float_to_zero :
    ruby_to_json (RubyValue.float F64.nan) = .ok (JsonValue.num 0) ∧
    ruby_to_json (RubyValue.float F64.inf) = .ok (JsonValue.num 0) ∧
    ruby_to_json (RubyValue.float F64.negInf) = .ok (JsonValue.num 0) ∧
    ∀ q : Rat,
      ruby_to_json (RubyValue.float (F64.finite q)) = .ok (JsonValue.num q) := by
  refine ⟨?_, ?_, ?_, fun q => ?_⟩ <;> simp [ruby_to_json, numberFromF64]

/-! ## Option lookup: string key before symbol key -/

/-- C7: `hash_get_value` tries the plain-string form of the key first and only
if that yields no value the symbolic form; when both are present the
string-keyed value wins, and when neither is present the option is absent. -/
theorem hash_get_value_string_precedence (h : RHashM) (key : String) :
    ((aref h (RubyValue.str key)).isNil = false →
      hash_get_value h key = some (aref h (RubyValue.str key))) ∧
    ((aref h (RubyValue.str key)).isNil = true →
      (aref h (RubyValue.sym key)).isNil = false →
      hash_get_value h key = some (aref h (RubyValue.sym key))) ∧
    ((aref h (RubyValue.str key)).isNil = true →
      (aref h (RubyValue.sym key)).isNil = true →
      hash_get_value h key = none) := by
  refine ⟨fun hs => ?_, fun hs hy => ?_, fun hs hy => ?_⟩ <;>
    simp_all [hash_get_value]

theorem hash_get_value_string_precedence_witness :
    hash_get_value
      [(RubyValue.str "k", RubyValue.str "sv"),
       (RubyValue.sym "k", RubyValue.str "yv")] "k" =
      some (RubyValue.str "sv") := by
  have h := (hash_get_value_string_precedence
    [(RubyValue.str "k", RubyValue.str "sv"),
     (RubyValue.sym "k", RubyValue.str "yv")] "k").1
    (by simp [aref, List.find?, rvBeq, RubyValue.isNil])
  rw [h]
  simp [aref, List.find?, rvBeq, RubyValue.isNil]

/-! ## Biased race: cancellation wins ties -/

theorem runRace_tie (pre rest : List (Bool × Option (Except EngineErr ResponseData)))
    (r : Except EngineErr ResponseData)
    (hpre : ∀ s ∈ pre, selectBiasedStep s.1 s.2 = none) :
    runRace (pre ++ (true, some r) :: rest) = some RequestOutcome.interrupted := by
  induction pre with
  | nil => cases r <;> simp [runRace, selectBiasedStep]
  | cons s pre ih =>
    obtain ⟨c, r0⟩ := s
    have hs := hpre (c, r0) (List.mem_cons_self _ pre)
    simp only [List.cons_append, runRace, hs]
    exact ih (fun s hsm => hpre s (List.mem_cons_of_mem _ hsm))

/-- C1: when the cancellation signal and the request's completion are both
ready in the same scheduling step of the biased race, the race resolves to
`Interrupted` — never `Success` — and `execute_method` surfaces it as the
interrupted error after entering the boundary. -/
theorem race_tie_interrupted (client : ClientBuilder) (u : String)
    (pre rest : List (Bool × Option (Except EngineErr ResponseData)))
    (r : Except EngineErr ResponseData) (o : RequestOutcome)
    (hpre : ∀ s ∈ pre, selectBiasedStep s.1 s.2 = none)
    (ho : runRace (pre ++ (true, some r) :: rest) = some o) :
    o = RequestOutcome.interrupted ∧
    execute_method client "GET" [RubyValue.str u] (fun _ => o) =
      (.error interruptedMessage, true) := by
  have hrun := runRace_tie pre rest r hpre
  rw [ho] at hrun
  obtain rfl : o = RequestOutcome.interrupted := by
    exact Option.some.inj hrun
  exact ⟨rfl, rfl⟩

theorem race_tie_interrupted_witness :
    execute_method {} "GET" [RubyValue.str "http://example.com"]
      (fun _ => RequestOutcome.interrupted) = (.error interruptedMessage, true) := by
  have h := race_tie_interrupted ({} : ClientBuilder) "http://example.com"
    [(false, none)] [] (.error "boom") RequestOutcome.interrupted
    (by intro s hs; simp at hs; subst hs; rfl)
    (by rfl)
  exact h.2

/-! ## Configuration errors are raised before the boundary -/

/-- C6: when option validation fails (invalid option type or value, unknown
emulation name, invalid header name or value) or the HTTP method string is
invalid, `execute_method` returns that error with the boundary flag still
`false`: the detached closure is never run and no network activity occurs. -/
theorem config_error_pre_boundary (client : ClientBuilder) (ms u : String)
    (hh : RHashM) (race : RequestBuilder → RequestOutcome) (e : Err) :
    (parseMethod ms = .error e →
      execute_method client ms [RubyValue.str u, RubyValue.hash hh] race =
        (.error e, false)) ∧
    (∀ m, parseMethod ms = .ok m →
      apply_request_options (clientRequest client m u) hh = .error e →
      execute_method client ms [RubyValue.str u, RubyValue.hash hh] race =
        (.error e, false)) := by
  constructor
  · intro hm
    simp [execute_method, tryConvertString, hm]
  · intro m hm ha
    simp [execute_method, tryConvertString, hm, ha]

theorem config_error_pre_boundary_witness :
    execute_method {} "GET"
      [RubyValue.str "http://example.com",
       RubyValue.hash [(RubyValue.str "emulation",
         RubyValue.str "not_a_real_browser")]]
      (fun _ => RequestOutcome.err "network was reached") =
      (.error "unknown emulation: not_a_real_browser", false) := by
  have h := (config_error_pre_boundary {} "GET" "http://example.com"
    [(RubyValue.str "emulation", RubyValue.str "not_a_real_browser")]
    (fun _ => RequestOutcome.err "network was reached")
    "unknown emulation: not_a_real_browser").2 "GET" rfl
    (by simp [apply_request_options, reqHeadersStep, reqBodyStep, reqJsonStep,
      reqFormStep, reqQueryStep, reqTimeoutStep, reqAuthStep, reqBearerStep,
      reqBasicStep, reqProxyStep, reqEmuStep, hash_get_value, hash_get_hash,
      hash_get_string, hash_get_float, aref, List.find?, rvBeq,
      RubyValue.isNil, tryConvertString, parse_emulation, knownEmulations,
      Bind.bind, Except.bind, Except.map, genericError])
  exact h

/-! ## Malformed `basic` option is silently ignored -/

/-- C10: when the `basic` option converts to an array of fewer than two
elements, the option is silently skipped: no basic-auth credentials are
applied and no error is raised — both at the `basic`-handling step and for
a request whose options contain only such a `basic` entry. -/
theorem basic_short_array_ignored :
    (∀ (h : RHashM) (req : RequestBuilder) (l : List RubyValue),
      hash_get_value h "basic" = some (.array l) → l.length < 2 →
      reqBasicStep h req = .ok req) ∧
    (∀ (req : RequestBuilder) (l : List RubyValue), l.length < 2 →
      apply_request_options req
        [(RubyValue.str "basic", RubyValue.array l)] = .ok req) := by
  have step : ∀ (h : RHashM) (req : RequestBuilder) (l : List RubyValue),
      hash_get_value h "basic" = some (.array l) → l.length < 2 →
      reqBasicStep h req = .ok req := by
    intro h req l hb hl
    unfold reqBasicStep
    rw [hb]
    cases l with
    | nil => rfl
    | cons u t =>
      cases t with
      | nil => rfl
      | cons p t2 => simp only [List.length_cons] at hl; omega
  refine ⟨step, fun req l hl => ?_⟩
  have hb : hash_get_value [(RubyValue.str "basic", RubyValue.array l)] "basic" =
      some (.array l) := by
    simp [hash_get_value, aref, List.find?, rvBeq, RubyValue.isNil]
  have hstep := step _ req l hb hl
  simp [apply_request_options, reqHeadersStep, reqBodyStep, reqJsonStep,
    reqFormStep, reqQueryStep, reqTimeoutStep, reqAuthStep, reqBearerStep,
    reqProxyStep, reqEmuStep, hash_get_value, hash_get_hash, hash_get_string,
    hash_get_float, aref, List.find?, rvBeq, RubyValue.isNil, Bind.bind,
    Except.bind, hstep]

theorem basic_short_array_ignored_witness :
    reqBasicStep [(RubyValue.str "basic", RubyValue.array [RubyValue.str "user"])]
        (clientRequest {} "GET" "http://example.com") =
      .ok (clientRequest {} "GET" "http://example.com") ∧
    apply_request_options (clientRequest {} "GET" "http://example.com")
        [(RubyValue.str "basic", RubyValue.array [])] =
      .ok (clientRequest {} "GET" "http://example.com") := by
  refine ⟨(basic_short_array_ignored).1 _ _ [RubyValue.str "user"]
    (by simp [hash_get_value, aref, List.find?, rvBeq, RubyValue.isNil])
    (by decide), (basic_short_array_ignored).2 _ [] (by decide)⟩

/-! ## Response headers map: last value wins, first-occurrence key order -/

theorem rhashAset_lookup (h : List (String × String)) (k v key : String) :
    assocLookup (rhashAset h k v) key =
      if key = k then some v else assocLookup h key := by
  induction h with
  | nil =>
    by_cases hk : key = k
    · subst hk; simp [rhashAset, assocLookup, List.find?]
    · have hf : (k == key) = false := beq_eq_false_iff_ne.2 fun hc => hk hc.symm
      simp [rhashAset, assocLookup, List.find?, hf, hk]
  | cons p rest ih =>
    obtain ⟨k0, v0⟩ := p
    by_cases h0 : k0 = k
    · subst h0
      by_cases hk : key = k0
      · subst hk
        simp [rhashAset, assocLookup, List.find?]
      · have hf : (k0 == key) = false := beq_eq_false_iff_ne.2 fun hc => hk hc.symm
        simp [rhashAset, assocLookup, List.find?, hf, hk]
    · have hf0 : (k0 == k) = false := beq_eq_false_iff_ne.2 h0
      by_cases hk : key = k0
      · subst hk
        simp [rhashAset, assocLookup, List.find?, hf0, h0]
      · have hf : (k0 == key) = false := beq_eq_false_iff_ne.2 fun hc => hk hc.symm
        simp only [rhashAset, hf0, Bool.false_eq_true, if_false]
        simp only [assocLookup, List.find?, hf]
        simpa [assocLookup] using ih

theorem rhashAset_keys (h : List (String × String)) (k v : String) :
    (rhashAset h k v).map Prod.fst =
      if k ∈ h.map Prod.fst then h.map Prod.fst else h.map Prod.fst ++ [k] := by
  induction h with
  | nil => simp [rhashAset]
  | cons p rest ih =>
    obtain ⟨k0, v0⟩ := p
    by_cases h0 : k0 = k
    · subst h0
      simp [rhashAset]
    · have hf0 : (k0 == k) = false := beq_eq_false_iff_ne.2 h0
      have hk0 : ¬k = k0 := fun hc => h0 hc.symm
      simp only [rhashAset, hf0, Bool.false_eq_true, if_false, List.map_cons,
        ih, List.mem_cons, hk0, false_or]
      by_cases hm : k ∈ rest.map Prod.fst
      · simp [hm]
      · simp [hm]

theorem headersFold_lookup (hs acc : List (String × String)) (key : String) :
    assocLookup (hs.foldl (fun h p => rhashAset h p.1 p.2) acc) key =
      match lastAssoc hs key with
      | some v => some v
      | none => assocLookup acc key := by
  induction hs generalizing acc with
  | nil => simp [lastAssoc]
  | cons p rest ih =>
    obtain ⟨k, v⟩ := p
    simp only [List.foldl_cons]
    rw [ih]
    simp only [lastAssoc]
    cases hrest : lastAssoc rest key with
    | some v2 => rfl
    | none =>
      rw [rhashAset_lookup]
      by_cases hk : key = k
      · subst hk; simp
      · have hk2 : ¬k = key := fun hc => hk hc.symm
        simp [hk, hk2]

theorem firstKeyOccurrences_congr (l : List String) :
    ∀ s1 s2 : List String, (∀ x, x ∈ s1 ↔ x ∈ s2) →
      firstKeyOccurrences s1 l = firstKeyOccurrences s2 l := by
  induction l with
  | nil => intro s1 s2 _; rfl
  | cons k ks ih =>
    intro s1 s2 hmem
    simp only [firstKeyOccurrences]
    by_cases hk : k ∈ s1
    · rw [if_pos hk, if_pos ((hmem k).1 hk), ih s1 s2 hmem]
    · rw [if_neg hk, if_neg (fun hc => hk ((hmem k).2 hc))]
      rw [ih (k :: s1) (k :: s2) (by intro x; simp [hmem x])]

theorem headersFold_keys (hs acc : List (String × String)) :
    (hs.foldl (fun h p => rhashAset h p.1 p.2) acc).map Prod.fst =
      acc.map Prod.fst ++
        firstKeyOccurrences (acc.map Prod.fst) (hs.map Prod.fst) := by
  induction hs generalizing acc with
  | nil => simp [firstKeyOccurrences]
  | cons p rest ih =>
    obtain ⟨k, v⟩ := p
    simp only [List.foldl_cons, List.map_cons]
    rw [ih, rhashAset_keys]
    by_cases hk : k ∈ acc.map Prod.fst
    · rw [if_pos hk]
      simp only [firstKeyOccurrences, if_pos hk]
    · rw [if_neg hk]
      simp only [firstKeyOccurrences, if_neg hk]
      rw [firstKeyOccurrences_congr (rest.map Prod.fst)
        ((acc.map Prod.fst ++ [k])) (k :: acc.map Prod.fst)
        (by intro x; simp [or_comm])]
      simp

/-- C9: the `headers` accessor builds its map by inserting the collected
pairs in list order, so lookup of any name yields the last value for that
name, and the key order is the insertion order of each name's first
occurrence. -/
theorem response_headers_map (r : ResponseM) (key : String) :
    assocLookup r.headersMethod key = lastAssoc r.headers key ∧
    r.headersMethod.map Prod.fst =
      firstKeyOccurrences [] (r.headers.map Prod.fst) := by
  constructor
  · have h := headersFold_lookup r.headers [] key
    simp only [ResponseM.headersMethod]
    rw [h]
    cases lastAssoc r.headers key <;> simp [assocLookup, List.find?]
  · have h := headersFold_keys r.headers []
    simpa [ResponseM.headersMethod] using h

/-! ## Body sources: applied in declaration order, last one wins -/

/-- C4: an options map may give any combination of `body`, `json` and `form`
(including more than one); `apply_request_options` raises no conflict error
and applies them in declaration order (`body`, then `json`, then `form`),
the last present one silently overriding the others, so exactly one body
source takes effect: `form` over `json` over raw `body`. -/
theorem body_sources_last_wins
    (req : RequestBuilder) (h : RHashM)
    (ob oj : Option String) (ofm : Option (List (String × String)))
    (hhdr : hash_get_value h "headers" = none)
    (hq : hash_get_value h "query" = none)
    (ht : hash_get_value h "timeout" = none)
    (hau : hash_get_value h "auth" = none)
    (hbe : hash_get_value h "bearer" = none)
    (hba : hash_get_value h "basic" = none)
    (hpx : hash_get_value h "proxy" = none)
    (hem : hash_get_value h "emulation" = none)
    (hb : match ob with
      | none => hash_get_value h "body" = none
      | some bs => hash_get_string h "body" = .ok (some bs))
    (hj : match oj with
      | none => hash_get_value h "json" = none
      | some js => ∃ jv, hash_get_value h "json" = some jv ∧
          ruby_to_json_string jv = .ok js)
    (hf : match ofm with
      | none => hash_get_value h "form" = none
      | some ps => ∃ fh, hash_get_hash h "form" = .ok (some fh) ∧
          hash_to_pairs fh = .ok ps) :
    (apply_request_options req h).map (fun req2 => req2.bodySlot) =
      .ok (match ofm, oj, ob with
        | some ps, _, _ => some (BodySource.form ps)
        | none, some js, _ => some (BodySource.raw js)
        | none, none, some bs => some (BodySource.raw bs)
        | none, none, none => req.bodySlot) := by
  have s1 : ∀ r, reqHeadersStep h r = .ok r := fun r => by
    simp [reqHeadersStep, hash_get_hash, hhdr]
  have s2 : ∀ r, reqBodyStep h r = .ok (match ob with
      | none => r
      | some bs => { r with bodySlot := some (.raw bs) }) := by
    cases ob with
    | none =>
      intro r
      have hbs : hash_get_string h "body" = .ok none := by
        simp [hash_get_string, hb]
      simp [reqBodyStep, hbs]
    | some bs => intro r; simp [reqBodyStep, hb]
  have s3 : ∀ r, reqJsonStep h r = .ok (match oj with
      | none => r
      | some js =>
        { r with headers := hmapInsert r.headers "content-type" "application/json",
                 bodySlot := some (.raw js) }) := by
    cases oj with
    | none => intro r; simp [reqJsonStep, hj]
    | some js =>
      intro r
      obtain ⟨jv, hjv, hjs⟩ := hj
      simp [reqJsonStep, hjv, hjs, Except.map]
  have s4 : ∀ r, reqFormStep h r = .ok (match ofm with
      | none => r
      | some ps =>
        { r with headers := hmapInsert r.headers "content-type"
                   "application/x-www-form-urlencoded",
                 bodySlot := some (.form ps) }) := by
    cases ofm with
    | none =>
      intro r
      have hfs : hash_get_hash h "form" = .ok none := by
        simp [hash_get_hash, hf]
      simp [reqFormStep, hfs]
    | some ps =>
      intro r
      obtain ⟨fh, hfh, hps⟩ := hf
      simp [reqFormStep, hfh, hps, Except.map]
  have s5 : ∀ r, reqQueryStep h r = .ok r := fun r => by
    simp [reqQueryStep, hash_get_hash, hq]
  have s6 : ∀ r, reqTimeoutStep h r = .ok r := fun r => by
    simp [reqTimeoutStep, hash_get_float, ht]
  have s7 : ∀ r, reqAuthStep h r = .ok r := fun r => by
    simp [reqAuthStep, hash_get_string, hau]
  have s8 : ∀ r, reqBearerStep h r = .ok r := fun r => by
    simp [reqBearerStep, hash_get_string, hbe]
  have s9 : ∀ r, reqBasicStep h r = .ok r := fun r => by
    simp [reqBasicStep, hba]
  have s10 : ∀ r, reqProxyStep h r = .ok r := fun r => by
    simp [reqProxyStep, hash_get_string, hpx]
  have s11 : ∀ r, reqEmuStep h r = .ok r := fun r => by
    simp [reqEmuStep, hem]
  rcases ofm with _ | ps <;> rcases oj with _ | js <;> rcases ob with _ | bs <;>
    simp [apply_request_options, s1, s2, s3, s4, s5, s6, s7, s8, s9, s10, s11,
      Bind.bind, Except.bind, Except.map]

theorem body_sources_last_wins_witness :
    (apply_request_options (clientRequest {} "POST" "http://example.com")
        [(RubyValue.str "body", RubyValue.str "rawbody"),
         (RubyValue.str "json", RubyValue.bool true),
         (RubyValue.str "form",
           RubyValue.hash [(RubyValue.str "a", RubyValue.str "b")])]).map
        (fun req2 => req2.bodySlot) =
      .ok (some (BodySource.form [("a", "b")])) := by
  have h := body_sources_last_wins (clientRequest {} "POST" "http://example.com")
    [(RubyValue.str "body", RubyValue.str "rawbody"),
     (RubyValue.str "json", RubyValue.bool true),
     (RubyValue.str "form",
       RubyValue.hash [(RubyValue.str "a", RubyValue.str "b")])]
    (some "rawbody") (some "true") (some [("a", "b")])
    (by simp [hash_get_value, aref, List.find?, rvBeq, RubyValue.isNil])
    (by simp [hash_get_value, aref, List.find?, rvBeq, RubyValue.isNil])
    (by simp [hash_get_value, aref, List.find?, rvBeq, RubyValue.isNil])
    (by simp [hash_get_value, aref, List.find?, rvBeq, RubyValue.isNil])
    (by simp [hash_get_value, aref, List.find?, rvBeq, RubyValue.isNil])
    (by simp [hash_get_value, aref, List.find?, rvBeq, RubyValue.isNil])
    (by simp [hash_get_value, aref, List.find?, rvBeq, RubyValue.isNil])
    (by simp [hash_get_value, aref, List.find?, rvBeq, RubyValue.isNil])
    (by simp [hash_get_string, hash_get_value, aref, List.find?, rvBeq,
      RubyValue.isNil, tryConvertString, Except.map])
    (by
      refine ⟨RubyValue.bool true, ?_, ?_⟩
      · simp [hash_get_value, aref, List.find?, rvBeq, RubyValue.isNil]
      · simp [ruby_to_json_string, ruby_to_json, jsonSerialize, Except.map])
    (by
      refine ⟨[(RubyValue.str "a", RubyValue.str "b")], ?_, ?_⟩
      · simp [hash_get_hash, hash_get_value, aref, List.find?, rvBeq,
          RubyValue.isNil]
      · simp [hash_to_pairs, hashKeyToString, tryConvertString, rvToS,
          Except.map])
  exact h

/-! ## Client construction: each step touches only its own builder field -/

theorem emuStep_char {h : RHashM} {b b' : ClientBuilder}
    (hb : emuStep h b = .ok b') :
    ∃ v, b' = { b with emulation := v } ∧
      (hash_get_value h "emulation" = none → v = some DEFAULT_EMULATION) := by
  cases hv : hash_get_value h "emulation" with
  | none =>
    simp [emuStep, hv] at hb
    exact ⟨some DEFAULT_EMULATION, hb.symm, fun _ => rfl⟩
  | some v0 =>
    rcases v0 with _ | bb | ii | ff | ss | yy | aa | hsh | oo
    case bool =>
      cases bb
      · simp [emuStep, hv] at hb
        exact ⟨b.emulation, hb.symm, fun habs => Option.noConfusion habs⟩
      · simp [emuStep, hv] at hb
        exact ⟨some DEFAULT_EMULATION, hb.symm, fun habs => Option.noConfusion habs⟩
    case str =>
      cases hpe : parse_emulation ss with
      | error e =>
        simp [emuStep, hv, tryConvertString, hpe, Except.map, Bind.bind,
          Except.bind] at hb
      | ok emu =>
        simp [emuStep, hv, tryConvertString, hpe, Except.map, Bind.bind,
          Except.bind] at hb
        exact ⟨some emu, hb.symm, fun habs => Option.noConfusion habs⟩
    all_goals
      simp [emuStep, hv, tryConvertString, Except.map, Bind.bind,
        Except.bind] at hb

theorem uaStep_char {h : RHashM} {b b' : ClientBuilder}
    (hb : uaStep h b = .ok b') :
    ∃ v, b' = { b with user_agent := v } ∧
      (hash_get_value h "user_agent" = none → v = b.user_agent) := by
  cases hv : hash_get_value h "user_agent" with
  | none =>
    simp [uaStep, hash_get_string, hv] at hb
    exact ⟨b.user_agent, hb.symm, fun _ => rfl⟩
  | some v0 =>
    cases htc : tryConvertString v0 with
    | error e => simp [uaStep, hash_get_string, hv, htc, Except.map] at hb
    | ok ua =>
      simp [uaStep, hash_get_string, hv, htc, Except.map] at hb
      exact ⟨some ua, hb.symm, fun habs => Option.noConfusion habs⟩

theorem hdrStep_char {h : RHashM} {b b' : ClientBuilder}
    (hb : hdrStep h b = .ok b') :
    ∃ v, b' = { b with default_headers := v } ∧
      (hash_get_value h "headers" = none → v = b.default_headers) := by
  cases hv : hash_get_value h "headers" with
  | none =>
    simp [hdrStep, hash_get_hash, hv] at hb
    exact ⟨b.default_headers, hb.symm, fun _ => rfl⟩
  | some v0 =>
    rcases v0 with _ | bb | ii | ff | ss | yy | aa | hsh | oo
    case hash =>
      cases hhm : hash_to_header_map hsh with
      | error e => simp [hdrStep, hash_get_hash, hv, hhm, Except.map] at hb
      | ok hm =>
        simp [hdrStep, hash_get_hash, hv, hhm, Except.map] at hb
        exact ⟨some hm, hb.symm, fun habs => Option.noConfusion habs⟩
    all_goals simp [hdrStep, hash_get_hash, hv] at hb

theorem timeoutStep_char {h : RHashM} {b b' : ClientBuilder}
    (hb : timeoutStep h b = .ok b') :
    ∃ v, b' = { b with timeout := v } ∧
      (hash_get_value h "timeout" = none → v = b.timeout) := by
  cases hv : hash_get_value h "timeout" with
  | none =>
    simp [timeoutStep, hash_get_float, hv] at hb
    exact ⟨b.timeout, hb.symm, fun _ => rfl⟩
  | some v0 =>
    cases htc : tryConvertFloat v0 with
    | error e => simp [timeoutStep, hash_get_float, hv, htc, Except.map] at hb
    | ok t =>
      simp [timeoutStep, hash_get_float, hv, htc, Except.map] at hb
      exact ⟨some t, hb.symm, fun habs => Option.noConfusion habs⟩

theorem connectTimeoutStep_char {h : RHashM} {b b' : ClientBuilder}
    (hb : connectTimeoutStep h b = .ok b') :
    ∃ v, b' = { b with connect_timeout := v } ∧
      (hash_get_value h "connect_timeout" = none → v = b.connect_timeout) := by
  cases hv : hash_get_value h "connect_timeout" with
  | none =>
    simp [connectTimeoutStep, hash_get_float, hv] at hb
    exact ⟨b.connect_timeout, hb.symm, fun _ => rfl⟩
  | some v0 =>
    cases htc : tryConvertFloat v0 with
    | error e =>
      simp [connectTimeoutStep, hash_get_float, hv, htc, Except.map] at hb
    | ok t =>
      simp [connectTimeoutStep, hash_get_float, hv, htc, Except.map] at hb
      exact ⟨some t, hb.symm, fun habs => Option.noConfusion habs⟩

theorem readTimeoutStep_char {h : RHashM} {b b' : ClientBuilder}
    (hb : readTimeoutStep h b = .ok b') :
    ∃ v, b' = { b with read_timeout := v } ∧
      (hash_get_value h "read_timeout" = none → v = b.read_timeout) := by
  cases hv : hash_get_value h "read_timeout" with
  | none =>
    simp [readTimeoutStep, hash_get_float, hv] at hb
    exact ⟨b.read_timeout, hb.symm, fun _ => rfl⟩
  | some v0 =>
    cases htc : tryConvertFloat v0 with
    | error e =>
      simp [readTimeoutStep, hash_get_float, hv, htc, Except.map] at hb
    | ok t =>
      simp [readTimeoutStep, hash_get_float, hv, htc, Except.map] at hb
      exact ⟨some t, hb.symm, fun habs => Option.noConfusion habs⟩

theorem redirectStep_char {h : RHashM} {b b' : ClientBuilder}
    (hb : redirectStep h b = .ok b') :
    ∃ v, b' = { b with redirect := v } ∧
      (hash_get_value h "redirect" = none → v = b.redirect) := by
  cases hv : hash_get_value h "redirect" with
  | none =>
    simp [redirectStep, hv] at hb
    exact ⟨b.redirect, hb.symm, fun _ => rfl⟩
  | some v0 =>
    rcases v0 with _ | bb | ii | ff | ss | yy | aa | hsh | oo
    case bool =>
      cases bb
      · simp [redirectStep, hv] at hb
        exact ⟨some .noFollow, hb.symm, fun habs => Option.noConfusion habs⟩
      · simp [redirectStep, hv] at hb
        exact ⟨some (.limited 10), hb.symm, fun habs => Option.noConfusion habs⟩
    case int =>
      by_cases hi : (0 : Int) ≤ ii
      · simp [redirectStep, hv, tryConvertUsize, hi, Except.map] at hb
        exact ⟨some (.limited ii.toNat), hb.symm, fun habs => Option.noConfusion habs⟩
      · simp [redirectStep, hv, tryConvertUsize, hi, Except.map] at hb
    all_goals simp [redirectStep, hv, tryConvertUsize, Except.map] at hb

theorem cookiesStep_char {h : RHashM} {b b' : ClientBuilder}
    (hb : cookiesStep h b = .ok b') :
    ∃ v, b' = { b with cookie_store := v } ∧
      (hash_get_value h "cookies" = none → v = b.cookie_store) := by
  cases hv : hash_get_value h "cookies" with
  | none =>
    simp [cookiesStep, hash_get_bool, hv] at hb
    exact ⟨b.cookie_store, hb.symm, fun _ => rfl⟩
  | some v0 =>
    simp [cookiesStep, hash_get_bool, hv] at hb
    exact ⟨some (truthy v0), hb.symm, fun habs => Option.noConfusion habs⟩

theorem proxyStep_char {h : RHashM} {b b' : ClientBuilder}
    (hb : proxyStep h b = .ok b') :
    ∃ v, b' = { b with proxy := v } ∧
      (hash_get_value h "proxy" = none → v = b.proxy) := by
  cases hv : hash_get_value h "proxy" with
  | none =>
    simp [proxyStep, hash_get_string, hv] at hb
    exact ⟨b.proxy, hb.symm, fun _ => rfl⟩
  | some v0 =>
    cases htc : tryConvertString v0 with
    | error e => simp [proxyStep, hash_get_string, hv, htc, Except.map] at hb
    | ok pu =>
      cases hpa : proxyAll pu with
      | error e =>
        simp [proxyStep, hash_get_string, hv, htc, hpa, Except.map] at hb
      | ok p =>
        cases hu : hash_get_string h "proxy_user" with
        | error e =>
          have hstep : proxyStep h b = .error e := by
            simp only [proxyStep]
            rw [show hash_get_string h "proxy" = .ok (some pu) from by
              simp [hash_get_string, hv, htc, Except.map]]
            simp only [hpa, hu]
          rw [hstep] at hb
          exact Except.noConfusion hb
        | ok user =>
          cases hp : hash_get_string h "proxy_pass" with
          | error e =>
            have hstep : proxyStep h b = .error e := by
              simp only [proxyStep]
              rw [show hash_get_string h "proxy" = .ok (some pu) from by
                simp [hash_get_string, hv, htc, Except.map]]
              simp only [hpa, hu, hp]
            rw [hstep] at hb
            exact Except.noConfusion hb
          | ok pass =>
            have : proxyStep h b = .ok { b with proxy := some (match user, pass with
              | some u, some pw => { p with basicAuth := some (u, pw) }
              | _, _ => p) } := by
              simp only [proxyStep]
              rw [show hash_get_string h "proxy" = .ok (some pu) from by
                simp [hash_get_string, hv, htc, Except.map]]
              simp only [hpa, hu, hp]
              rcases user with _ | u <;> rcases pass with _ | pw <;> rfl
            rw [this] at hb
            simp only [Except.ok.injEq] at hb
            exact ⟨_, hb.symm, fun habs => Option.noConfusion habs⟩

theorem noProxyStep_char {h : RHashM} {b b' : ClientBuilder}
    (hb : noProxyStep h b = .ok b') :
    ∃ v, b' = { b with no_proxy := v } ∧
      (hash_get_value h "no_proxy" = none → v = b.no_proxy) := by
  cases hv : hash_get_value h "no_proxy" with
  | none =>
    simp [noProxyStep, hash_get_bool, hv] at hb
    exact ⟨b.no_proxy, hb.symm, fun _ => rfl⟩
  | some v0 =>
    cases ht : truthy v0 with
    | true =>
      simp [noProxyStep, hash_get_bool, hv, ht] at hb
      exact ⟨true, hb.symm, fun habs => Option.noConfusion habs⟩
    | false =>
      simp [noProxyStep, hash_get_bool, hv, ht] at hb
      exact ⟨b.no_proxy, hb.symm, fun habs => Option.noConfusion habs⟩

theorem httpsOnlyStep_char {h : RHashM} {b b' : ClientBuilder}
    (hb : httpsOnlyStep h b = .ok b') :
    ∃ v, b' = { b with https_only := v } ∧
      (hash_get_value h "https_only" = none → v = b.https_only) := by
  cases hv : hash_get_value h "https_only" with
  | none =>
    simp [httpsOnlyStep, hash_get_bool, hv] at hb
    exact ⟨b.https_only, hb.symm, fun _ => rfl⟩
  | some v0 =>
    simp [httpsOnlyStep, hash_get_bool, hv] at hb
    exact ⟨some (truthy v0), hb.symm, fun habs => Option.noConfusion habs⟩

theorem http1Step_char {h : RHashM} {b b' : ClientBuilder}
    (hb : http1Step h b = .ok b') :
    ∃ v, b' = { b with http1_only := v } ∧
      (hash_get_value h "http1_only" = none → v = b.http1_only) := by
  cases hv : hash_get_value h "http1_only" with
  | none =>
    simp [http1Step, hash_get_bool, hv] at hb
    exact ⟨b.http1_only, hb.symm, fun _ => rfl⟩
  | some v0 =>
    cases ht : truthy v0 with
    | true =>
      simp [http1Step, hash_get_bool, hv, ht] at hb
      exact ⟨true, hb.symm, fun habs => Option.noConfusion habs⟩
    | false =>
      simp [http1Step, hash_get_bool, hv, ht] at hb
      exact ⟨b.http1_only, hb.symm, fun habs => Option.noConfusion habs⟩

theorem http2Step_char {h : RHashM} {b b' : ClientBuilder}
    (hb : http2Step h b = .ok b') :
    ∃ v, b' = { b with http2_only := v } ∧
      (hash_get_value h "http2_only" = none → v = b.http2_only) := by
  cases hv : hash_get_value h "http2_only" with
  | none =>
    simp [http2Step, hash_get_bool, hv] at hb
    exact ⟨b.http2_only, hb.symm, fun _ => rfl⟩
  | some v0 =>
    cases ht : truthy v0 with
    | true =>
      simp [http2Step, hash_get_bool, hv, ht] at hb
      exact ⟨true, hb.symm, fun habs => Option.noConfusion habs⟩
    | false =>
      simp [http2Step, hash_get_bool, hv, ht] at hb
      exact ⟨b.http2_only, hb.symm, fun habs => Option.noConfusion habs⟩

theorem gzipStep_char {h : RHashM} {b b' : ClientBuilder}
    (hb : gzipStep h b = .ok b') :
    ∃ v, b' = { b with gzip := v } ∧
      (hash_get_value h "gzip" = none → v = b.gzip) := by
  cases hv : hash_get_value h "gzip" with
  | none =>
    simp [gzipStep, hash_get_bool, hv] at hb
    exact ⟨b.gzip, hb.symm, fun _ => rfl⟩
  | some v0 =>
    simp [gzipStep, hash_get_bool, hv] at hb
    exact ⟨some (truthy v0), hb.symm, fun habs => Option.noConfusion habs⟩

theorem brotliStep_char {h : RHashM} {b b' : ClientBuilder}
    (hb : brotliStep h b = .ok b') :
    ∃ v, b' = { b with brotli := v } ∧
      (hash_get_value h "brotli" = none → v = b.brotli) := by
  cases hv : hash_get_value h "brotli" with
  | none =>
    simp [brotliStep, hash_get_bool, hv] at hb
    exact ⟨b.brotli, hb.symm, fun _ => rfl⟩
  | some v0 =>
    simp [brotliStep, hash_get_bool, hv] at hb
    exact ⟨some (truthy v0), hb.symm, fun habs => Option.noConfusion habs⟩

theorem deflateStep_char {h : RHashM} {b b' : ClientBuilder}
    (hb : deflateStep h b = .ok b') :
    ∃ v, b' = { b with deflate := v } ∧
      (hash_get_value h "deflate" = none → v = b.deflate) := by
  cases hv : hash_get_value h "deflate" with
  | none =>
    simp [deflateStep, hash_get_bool, hv] at hb
    exact ⟨b.deflate, hb.symm, fun _ => rfl⟩
  | some v0 =>
    simp [deflateStep, hash_get_bool, hv] at hb
    exact ⟨some (truthy v0), hb.symm, fun habs => Option.noConfusion habs⟩

theorem zstdStep_char {h : RHashM} {b b' : ClientBuilder}
    (hb : zstdStep h b = .ok b') :
    ∃ v, b' = { b with zstd := v } ∧
      (hash_get_value h "zstd" = none → v = b.zstd) := by
  cases hv : hash_get_value h "zstd" with
  | none =>
    simp [zstdStep, hash_get_bool, hv] at hb
    exact ⟨b.zstd, hb.symm, fun _ => rfl⟩
  | some v0 =>
    simp [zstdStep, hash_get_bool, hv] at hb
    exact ⟨some (truthy v0), hb.symm, fun habs => Option.noConfusion habs⟩

/-- C5: with no options map at all, or with an options map lacking the
`emulation` key, client construction still applies the default emulation
profile; and every other omitted key leaves the corresponding engine
default untouched (no builder option is applied for it). -/
theorem client_defaults_untouched :
    rb_new [] = .ok { emulation := some DEFAULT_EMULATION } ∧
    ∀ (hh : RHashM) (c : ClientBuilder), rb_new [RubyValue.hash hh] = .ok c →
      (hash_get_value hh "emulation" = none →
        c.emulation = some DEFAULT_EMULATION) ∧
      (hash_get_value hh "user_agent" = none → c.user_agent = none) ∧
      (hash_get_value hh "headers" = none → c.default_headers = none) ∧
      (hash_get_value hh "timeout" = none → c.timeout = none) ∧
      (hash_get_value hh "connect_timeout" = none → c.connect_timeout = none) ∧
      (hash_get_value hh "read_timeout" = none → c.read_timeout = none) ∧
      (hash_get_value hh "redirect" = none → c.redirect = none) ∧
      (hash_get_value hh "cookies" = none → c.cookie_store = none) ∧
      (hash_get_value hh "proxy" = none → c.proxy = none) ∧
      (hash_get_value hh "no_proxy" = none → c.no_proxy = false) ∧
      (hash_get_value hh "https_only" = none → c.https_only = none) ∧
      (hash_get_value hh "http1_only" = none → c.http1_only = false) ∧
      (hash_get_value hh "http2_only" = none → c.http2_only = false) ∧
      (hash_get_value hh "gzip" = none → c.gzip = none) ∧
      (hash_get_value hh "brotli" = none → c.brotli = none) ∧
      (hash_get_value hh "deflate" = none → c.deflate = none) ∧
      (hash_get_value hh "zstd" = none → c.zstd = none) := by
  refine ⟨rfl, fun hh c hc => ?_⟩
  have hc2 : rbNewWithOpts hh = .ok c := hc
  unfold rbNewWithOpts at hc2
  rw [except_bind_ok] at hc2
  obtain ⟨b16, hc2, h17⟩ := hc2
  rw [except_bind_ok] at hc2
  obtain ⟨b15, hc2, h16⟩ := hc2
  rw [except_bind_ok] at hc2
  obtain ⟨b14, hc2, h15⟩ := hc2
  rw [except_bind_ok] at hc2
  obtain ⟨b13, hc2, h14⟩ := hc2
  rw [except_bind_ok] at hc2
  obtain ⟨b12, hc2, h13⟩ := hc2
  rw [except_bind_ok] at hc2
  obtain ⟨b11, hc2, h12⟩ := hc2
  rw [except_bind_ok] at hc2
  obtain ⟨b10, hc2, h11⟩ := hc2
  rw [except_bind_ok] at hc2
  obtain ⟨b9, hc2, h10⟩ := hc2
  rw [except_bind_ok] at hc2
  obtain ⟨b8, hc2, h9⟩ := hc2
  rw [except_bind_ok] at hc2
  obtain ⟨b7, hc2, h8⟩ := hc2
  rw [except_bind_ok] at hc2
  obtain ⟨b6, hc2, h7⟩ := hc2
  rw [except_bind_ok] at hc2
  obtain ⟨b5, hc2, h6⟩ := hc2
  rw [except_bind_ok] at hc2
  obtain ⟨b4, hc2, h5⟩ := hc2
  rw [except_bind_ok] at hc2
  obtain ⟨b3, hc2, h4⟩ := hc2
  rw [except_bind_ok] at hc2
  obtain ⟨b2, hc2, h3⟩ := hc2
  rw [except_bind_ok] at hc2
  obtain ⟨b1, h1, h2⟩ := hc2
  obtain ⟨v1, e1, i1⟩ := emuStep_char h1
  obtain ⟨v2, e2, i2⟩ := uaStep_char h2
  obtain ⟨v3, e3, i3⟩ := hdrStep_char h3
  obtain ⟨v4, e4, i4⟩ := timeoutStep_char h4
  obtain ⟨v5, e5, i5⟩ := connectTimeoutStep_char h5
  obtain ⟨v6, e6, i6⟩ := readTimeoutStep_char h6
  obtain ⟨v7, e7, i7⟩ := redirectStep_char h7
  obtain ⟨v8, e8, i8⟩ := cookiesStep_char h8
  obtain ⟨v9, e9, i9⟩ := proxyStep_char h9
  obtain ⟨v10, e10, i10⟩ := noProxyStep_char h10
  obtain ⟨v11, e11, i11⟩ := httpsOnlyStep_char h11
  obtain ⟨v12, e12, i12⟩ := http1Step_char h12
  obtain ⟨v13, e13, i13⟩ := http2Step_char h13
  obtain ⟨v14, e14, i14⟩ := gzipStep_char h14
  obtain ⟨v15, e15, i15⟩ := brotliStep_char h15
  obtain ⟨v16, e16, i16⟩ := deflateStep_char h16
  obtain ⟨v17, e17, i17⟩ := zstdStep_char h17
  subst e1 e2 e3 e4 e5 e6 e7 e8 e9 e10 e11 e12 e13 e14 e15 e16 e17
  exact ⟨fun habs => by simp [i1 habs], fun habs => by simp [i2 habs],
    fun habs => by simp [i3 habs], fun habs => by simp [i4 habs],
    fun habs => by simp [i5 habs], fun habs => by simp [i6 habs],
    fun habs => by simp [i7 habs], fun habs => by simp [i8 habs],
    fun habs => by simp [i9 habs], fun habs => by simp [i10 habs],
    fun habs => by simp [i11 habs], fun habs => by simp [i12 habs],
    fun habs => by simp [i13 habs], fun habs => by simp [i14 habs],
    fun habs => by simp [i15 habs], fun habs => by simp [i16 habs],
    fun habs => by simp [i17 habs]⟩

theorem client_defaults_untouched_witness :
    rb_new [RubyValue.hash []] = .ok { emulation := some DEFAULT_EMULATION } ∧
    ({ emulation := some DEFAULT_EMULATION } : ClientBuilder).user_agent =
      none := by
  have h2 := (client_defaults_untouched).2 []
    { emulation := some DEFAULT_EMULATION } rfl
  exact ⟨rfl, h2.2.1 rfl⟩

end WreqRb
